import Mathlib

/-!
Verification of the WER core of `asr-result-visualizer`.

The program's strings (JS UTF-16 sequences) are modelled as lists of
characters (`Str`).  The floating-point rates the source computes are
modelled as exact rationals: every division the code performs divides
two integer counts, so rational arithmetic mirrors the expressions the
code evaluates exactly.

Sources embedded here:
* `src/lib/wer.ts` — `preprocessText`, `calculateWER`,
  `alignWordsWithPositions`;
* the page component (`calculateResults`) — batch aggregation.
-/

namespace Wer

/-- A JS string, modelled as a list of characters. -/
abbrev Str := List Char

/-- The JS regex class `\s` (whitespace), as matched by `/\s+/` and the
split/collapse regexes of the source. -/
def isJsSpace (c : Char) : Bool :=
  let n := c.toNat
  n = 0x9 || n = 0xA || n = 0xB || n = 0xC || n = 0xD || n = 0x20 ||
  n = 0xA0 || n = 0x1680 || (0x2000 ≤ n && n ≤ 0x200A) ||
  n = 0x2028 || n = 0x2029 || n = 0x202F || n = 0x205F || n = 0x3000 || n = 0xFEFF

/-- The JS regex class `\w`: ASCII letters, digits and underscore. -/
def isWordChar (c : Char) : Bool :=
  let n := c.toNat
  (0x41 ≤ n && n ≤ 0x5A) || (0x61 ≤ n && n ≤ 0x7A) ||
  (0x30 ≤ n && n ≤ 0x39) || n = 0x5F

/-- Characters NOT matched by the punctuation regex
`[^\w\sÀ-ɏḀ-ỿ]` of `preprocessText` (wer.ts line 52):
word characters, whitespace and the two extended Latin ranges.  Every
other character is matched and replaced. -/
def keepChar (c : Char) : Bool :=
  isWordChar c || isJsSpace c ||
  (0xC0 ≤ c.toNat && c.toNat ≤ 0x24F) ||
  (0x1E00 ≤ c.toNat && c.toNat ≤ 0x1EFF)

/-- Per-character lowercase map.  The source calls the JS built-in
`String.prototype.toLowerCase`; we model its simple case mapping on the
Basic Latin and Latin-1 ranges (no claim under verification depends on
the mapping of any character outside these ranges). -/
def jsToLower (c : Char) : Char :=
  let n := c.toNat
  if 0x41 ≤ n && n ≤ 0x5A then Char.ofNat (n + 0x20)
  else if (0xC0 ≤ n && n ≤ 0xDE) && !(n = 0xD7) then Char.ofNat (n + 0x20)
  else c

/-- `text.toLowerCase()` (wer.ts line 47). -/
def toLowerStr (s : Str) : Str := s.map jsToLower

/-- `text.replace(/[^\w\sÀ-ɏḀ-ỿ]/g, ' ')`
(wer.ts line 52): the regex is a single negated character class, so the
global replace maps every matched character to one space and keeps the
rest. -/
def removePunct (s : Str) : Str := s.map fun c => if keepChar c then c else ' '

/-- `text.replace(/\s+/g, ' ')` (wer.ts line 57): every maximal run of
whitespace becomes a single space. -/
def collapseWs : Str → Str
  | [] => []
  | c :: rest =>
    if isJsSpace c then ' ' :: collapseWs (rest.dropWhile isJsSpace)
    else c :: collapseWs rest
termination_by s => s.length
decreasing_by
  · simp only [List.length_cons]
    have h : ∀ l : Str, (l.dropWhile isJsSpace).length ≤ l.length := by
      intro l
      induction l with
      | nil => simp [List.dropWhile]
      | cons c r ih =>
        simp only [List.dropWhile]
        split
        · simp
          omega
        · simp
    have := h rest
    omega
  · simp

/-- `text.trim()` (wer.ts line 57). -/
def trimWs (s : Str) : Str :=
  ((s.dropWhile isJsSpace).reverse.dropWhile isJsSpace).reverse

/-- `PreprocessOptions` (wer.ts lines 30-34). -/
structure PreprocessOptions where
  lowercase : Bool
  removePunctuation : Bool
  removeExtraSpaces : Bool
deriving DecidableEq

/-- `DEFAULT_PREPROCESS_OPTIONS` (wer.ts lines 36-40). -/
def DEFAULT_PREPROCESS_OPTIONS : PreprocessOptions :=
  { lowercase := true, removePunctuation := true, removeExtraSpaces := true }

/-- `preprocessText` (wer.ts lines 42-61): lowercase, then depunctuate,
then collapse whitespace, each step enabled by its switch. -/
def preprocessText (text : Str) (options : PreprocessOptions) : Str :=
  let p1 := if options.lowercase then toLowerStr text else text
  let p2 := if options.removePunctuation then removePunct p1 else p1
  let p3 := if options.removeExtraSpaces then trimWs (collapseWs p2) else p2
  p3

/-- `text.split(/\s+/).filter(word => word.length > 0)`
(wer.ts lines 77-78).  The accumulator holds the current word reversed;
the result is the list of maximal non-whitespace runs, which is exactly
what the JS split-then-filter produces (a leading empty fragment from
leading whitespace is discarded by the filter). -/
def splitWsAux : Str → Str → List Str
  | [], cur => if cur.isEmpty then [] else [cur.reverse]
  | c :: rest, cur =>
    if isJsSpace c then
      if cur.isEmpty then splitWsAux rest [] else cur.reverse :: splitWsAux rest []
    else splitWsAux rest (c :: cur)

/-- Tokenization: split on whitespace runs, dropping empty fragments. -/
def splitWs (s : Str) : List Str := splitWsAux s []

/-- The four tags of `AlignmentResult.type` (wer.ts line 17). -/
inductive AlignType
  | correct
  | substitution
  | insertion
  | deletion
deriving DecidableEq

/-- `AlignmentResult` (wer.ts lines 14-20).  Optional fields are
`Option`s; `undefined` is `none`. -/
structure AlignmentResult where
  reference : Str
  prediction : Str
  type : AlignType
  referencePosition : Option Int
  predictionPosition : Option Int
deriving DecidableEq

/-- `ErrorDetail` (wer.ts lines 22-28).  The `type` field never holds
`correct`; we reuse `AlignType` for it. -/
structure ErrorDetail where
  type : AlignType
  referenceWord : Option Str
  predictionWord : Option Str
  referencePosition : Option Int
  predictionPosition : Option Int
deriving DecidableEq

/-!
### The cost matrix

`alignWordsWithPositions` (wer.ts lines 129-152) materializes the
Wagner-Fischer table `dp` row by row.  `dmatI ref pred i` is row `i` of
that table as a function of the column, and `dmat ref pred i j` is
`dp[i][j]`.  Row 0 is the base case `dp[0][j] = j`; row `i ≥ 1` has base
cell `dp[i][0] = i` and interior cells given by the match test and the
three cost-1 alternatives (`substitutionCost`, `deletionCost`,
`insertionCost`), exactly as in source lines 140-149.  Out-of-range
token reads are modelled with `List.get?`, never reached from the
top-level call. -/

/-- One interior row of the DP table: `ti` is `ref[i-1]`, `prev` is row
`i-1`, `base` is the border value `dp[i][0] = i`. -/
def dmatRowAux (pred : List Str) (ti : Option Str) (prev : Nat → Nat) (base : Nat) :
    Nat → Nat
  | 0 => base
  | j + 1 =>
    if ti = pred.get? j then prev j
    else
      min (min (prev j + 1) (prev (j + 1) + 1)) (dmatRowAux pred ti prev base j + 1)

/-- Row `i` of the DP table. -/
def dmatI (ref pred : List Str) : Nat → Nat → Nat
  | 0 => fun j => j
  | i + 1 => dmatRowAux pred (ref.get? i) (dmatI ref pred i) (i + 1)

/-- `dp[i][j]` of the cost matrix built by `alignWordsWithPositions`. -/
def dmat (ref pred : List Str) (i j : Nat) : Nat := dmatI ref pred i j

/-!
### Backtracking

The `while (i > 0 || j > 0)` loop of wer.ts lines 162-232 walks from
`(m, n)` to `(0, 0)`, testing in order: match, substitution, deletion,
insertion, with a fallback `break`.  Every iteration `unshift`s the new
entry to the front of the trace built so far, so the finished trace
lists the entry produced at the largest `(i, j)` last; the loop is
therefore the recursion "trace of the smaller state, with this step's
entry appended".  The third component of the result is `true` iff the
loop exited through its condition (`i == 0 && j == 0`) and `false` iff
it exited through the fallback `break`; the source has no such flag, it
is recorded here so that reachability of the fallback is expressible.

The loop tests `i > 0` / `j > 0` before each transition; here those
guards are decided by the case structure (row 0 is the `i == 0` states,
column 0 the `j == 0` states), and the remaining cost-equation tests
are kept verbatim.  The recursion is by row, as for `dmat`: transitions
go to `(i-1, j-1)`, `(i-1, j)` (previous row) or `(i, j-1)` (same row,
smaller column). -/

/-- Result triple: alignment trace, detailed errors, and `true` iff the
backtracking loop finished at `(0, 0)` (never hit the fallback). -/
abbrev BtOut := List AlignmentResult × List ErrorDetail × Bool

/-- Backtracking states with `i = 0` (wer.ts lines 212-227 are the only
branches whose guards can hold there: insertion, else fallback). -/
def btrackRow0 (ref pred : List Str) : Nat → Int → Int → BtOut
  | 0, _, _ => ([], [], true)
  | j + 1, refPos, predPos =>
    if dmat ref pred 0 (j + 1) = dmat ref pred 0 j + 1 then
      let r := btrackRow0 ref pred j refPos (predPos - 1)
      (r.1 ++ [{ reference := [], prediction := pred.getD j [],
                 type := AlignType.insertion,
                 referencePosition := none, predictionPosition := some predPos }],
       r.2.1 ++ [{ type := AlignType.insertion,
                   referenceWord := none, predictionWord := some (pred.getD j []),
                   referencePosition := none, predictionPosition := some predPos }],
       r.2.2)
    else ([], [], false)

/-- Backtracking states on row `i1 ≥ 1`: `prev` is the backtracker for
row `i1 - 1`.  At `j = 0` only the deletion guard (wer.ts line 196) can
hold; at `j ≥ 1` all four branches are tested in source order. -/
def btrackRowS (ref pred : List Str) (i1 : Nat) (prev : Nat → Int → Int → BtOut) :
    Nat → Int → Int → BtOut
  | 0, refPos, predPos =>
    if dmat ref pred i1 0 = dmat ref pred (i1 - 1) 0 + 1 then
      let r := prev 0 (refPos - 1) predPos
      (r.1 ++ [{ reference := ref.getD (i1 - 1) [], prediction := [],
                 type := AlignType.deletion,
                 referencePosition := some refPos, predictionPosition := none }],
       r.2.1 ++ [{ type := AlignType.deletion,
                   referenceWord := some (ref.getD (i1 - 1) []), predictionWord := none,
                   referencePosition := some refPos, predictionPosition := none }],
       r.2.2)
    else ([], [], false)
  | j + 1, refPos, predPos =>
    if ref.get? (i1 - 1) = pred.get? j then
      let r := prev j (refPos - 1) (predPos - 1)
      (r.1 ++ [{ reference := ref.getD (i1 - 1) [], prediction := pred.getD j [],
                 type := AlignType.correct,
                 referencePosition := some refPos, predictionPosition := some predPos }],
       r.2.1, r.2.2)
    else if dmat ref pred i1 (j + 1) = dmat ref pred (i1 - 1) j + 1 then
      let r := prev j (refPos - 1) (predPos - 1)
      (r.1 ++ [{ reference := ref.getD (i1 - 1) [], prediction := pred.getD j [],
                 type := AlignType.substitution,
                 referencePosition := some refPos, predictionPosition := some predPos }],
       r.2.1 ++ [{ type := AlignType.substitution,
                   referenceWord := some (ref.getD (i1 - 1) []),
                   predictionWord := some (pred.getD j []),
                   referencePosition := some refPos, predictionPosition := some predPos }],
       r.2.2)
    else if dmat ref pred i1 (j + 1) = dmat ref pred (i1 - 1) (j + 1) + 1 then
      let r := prev (j + 1) (refPos - 1) predPos
      (r.1 ++ [{ reference := ref.getD (i1 - 1) [], prediction := [],
                 type := AlignType.deletion,
                 referencePosition := some refPos, predictionPosition := none }],
       r.2.1 ++ [{ type := AlignType.deletion,
                   referenceWord := some (ref.getD (i1 - 1) []), predictionWord := none,
                   referencePosition := some refPos, predictionPosition := none }],
       r.2.2)
    else if dmat ref pred i1 (j + 1) = dmat ref pred i1 j + 1 then
      let r := btrackRowS ref pred i1 prev j refPos (predPos - 1)
      (r.1 ++ [{ reference := [], prediction := pred.getD j [],
                 type := AlignType.insertion,
                 referencePosition := none, predictionPosition := some predPos }],
       r.2.1 ++ [{ type := AlignType.insertion,
                   referenceWord := none, predictionWord := some (pred.getD j []),
                   referencePosition := none, predictionPosition := some predPos }],
       r.2.2)
    else ([], [], false)

/-- Backtracker for row `i`. -/
def btrackI (ref pred : List Str) : Nat → Nat → Int → Int → BtOut
  | 0 => btrackRow0 ref pred
  | i + 1 => btrackRowS ref pred (i + 1) (btrackI ref pred i)

/-- The backtracking loop of wer.ts lines 154-232, started at state
`(i, j)` with position counters `refPos`, `predPos`. -/
def btrack (ref pred : List Str) (i j : Nat) (refPos predPos : Int) : BtOut :=
  btrackI ref pred i j refPos predPos

/-- Output record of `alignWordsWithPositions`. -/
structure AlignOut where
  alignment : List AlignmentResult
  detailedErrors : List ErrorDetail
deriving DecidableEq

/-- `alignWordsWithPositions` (wer.ts lines 118-235): build the DP
table, then backtrack from `(m, n)` with `refPos = m - 1`,
`predPos = n - 1`. -/
def alignWordsWithPositions (ref pred : List Str) : AlignOut :=
  let m := ref.length
  let n := pred.length
  let r := btrack ref pred m n ((m : Int) - 1) ((n : Int) - 1)
  { alignment := r.1, detailedErrors := r.2.1 }

/-- `WERResult` (wer.ts lines 1-12), with exact rationals for the
floating-point rate fields. -/
structure WERResult where
  wer : ℚ
  substitutions : Nat
  insertions : Nat
  deletions : Nat
  totalWords : Nat
  substitutionRate : ℚ
  insertionRate : ℚ
  deletionRate : ℚ
  alignment : List AlignmentResult
  detailedErrors : List ErrorDetail
deriving DecidableEq

/-- The counting and rate computation of `calculateWER`
(wer.ts lines 80-115), as a function of the two token sequences.  The
source's `forEach`/`switch` tally is the count of entries of each
type. -/
def werOfTokens (refWords predWords : List Str) : WERResult :=
  let out := alignWordsWithPositions refWords predWords
  let substitutions := out.alignment.countP fun a => decide (a.type = AlignType.substitution)
  let insertions := out.alignment.countP fun a => decide (a.type = AlignType.insertion)
  let deletions := out.alignment.countP fun a => decide (a.type = AlignType.deletion)
  let totalWords := refWords.length
  let totalErrors := substitutions + insertions + deletions
  { wer := if 0 < totalWords then (totalErrors : ℚ) / (totalWords : ℚ) else 0,
    substitutions := substitutions,
    insertions := insertions,
    deletions := deletions,
    totalWords := totalWords,
    substitutionRate := if 0 < totalWords then (substitutions : ℚ) / (totalWords : ℚ) else 0,
    insertionRate := if 0 < totalWords then (insertions : ℚ) / (totalWords : ℚ) else 0,
    deletionRate := if 0 < totalWords then (deletions : ℚ) / (totalWords : ℚ) else 0,
    alignment := out.alignment,
    detailedErrors := out.detailedErrors }

/-- The text processed by `calculateWER` before tokenization
(wer.ts lines 68-75): preprocessed when options are provided, verbatim
otherwise. -/
def processedText (text : Str) (preprocessOptions : Option PreprocessOptions) : Str :=
  match preprocessOptions with
  | some opts => preprocessText text opts
  | none => text

/-- `calculateWER` (wer.ts lines 63-116). -/
def calculateWER (reference prediction : Str)
    (preprocessOptions : Option PreprocessOptions) : WERResult :=
  werOfTokens (splitWs (processedText reference preprocessOptions))
    (splitWs (processedText prediction preprocessOptions))

/-- `DataRow` (parser module). -/
structure DataRow where
  reference : Str
  prediction : Str
deriving DecidableEq

/-- The `overallStats` record of the page component. -/
structure OverallStats where
  wer : ℚ
  substitutionRate : ℚ
  insertionRate : ℚ
  deletionRate : ℚ
  totalSamples : Nat
deriving DecidableEq

/-- `calculateResults` (page component, lines 62-83): per-row
`calculateWER`, then batch totals via `reduce`, then pooled rates with
the same zero-guard as the per-sample computation. -/
def calculateResults (data : List DataRow) (preprocessOptions : PreprocessOptions) :
    List WERResult × OverallStats :=
  let results := data.map fun row =>
    calculateWER row.reference row.prediction (some preprocessOptions)
  let totalWords : Nat := results.foldl (fun sum r => sum + r.totalWords) 0
  let totalSubs : Nat := results.foldl (fun sum r => sum + r.substitutions) 0
  let totalIns : Nat := results.foldl (fun sum r => sum + r.insertions) 0
  let totalDel : Nat := results.foldl (fun sum r => sum + r.deletions) 0
  let totalErr : Nat := totalSubs + totalIns + totalDel
  (results,
   { wer := if 0 < totalWords then (totalErr : ℚ) / (totalWords : ℚ) else 0,
     substitutionRate := if 0 < totalWords then (totalSubs : ℚ) / (totalWords : ℚ) else 0,
     insertionRate := if 0 < totalWords then (totalIns : ℚ) / (totalWords : ℚ) else 0,
     deletionRate := if 0 < totalWords then (totalDel : ℚ) / (totalWords : ℚ) else 0,
     totalSamples := results.length })

/-- Positional soundness of one alignment entry: every defined position
is a non-negative in-range index whose token in the original sequence
is the one the entry carries. -/
def posOk (ref pred : List Str) (e : AlignmentResult) : Bool :=
  (match e.referencePosition with
   | none => true
   | some p => decide (0 ≤ p) && decide (ref.get? p.toNat = some e.reference)) &&
  (match e.predictionPosition with
   | none => true
   | some p => decide (0 ≤ p) && decide (pred.get? p.toNat = some e.prediction))

/-- A text of `k` tokens, used to show token counts are unbounded. -/
def pump : Nat → Str
  | 0 => []
  | k + 1 => 'a' :: ' ' :: pump k

/-!
### Basic equations of the cost matrix
-/

theorem dmat_zero_left (ref pred : List Str) (j : Nat) : dmat ref pred 0 j = j := rfl

theorem dmat_zero_right (ref pred : List Str) (i : Nat) : dmat ref pred i 0 = i := by
  cases i <;> rfl

theorem dmat_succ_succ (ref pred : List Str) (i j : Nat) :
    dmat ref pred (i + 1) (j + 1) =
      if ref.get? i = pred.get? j then dmat ref pred i j
      else
        min (min (dmat ref pred i j + 1) (dmat ref pred i (j + 1) + 1))
          (dmat ref pred (i + 1) j + 1) := rfl

/-!
### Properties of the cost matrix
-/

theorem dmat_bounds_aux (ref pred : List Str) :
    ∀ k i j, i + j = k →
      dmat ref pred i j ≤ max i j ∧ i - j ≤ dmat ref pred i j ∧ j - i ≤ dmat ref pred i j := by
  intro k
  induction k using Nat.strong_induction_on with
  | _ k ih =>
    intro i j hk
    match i, j with
    | i, 0 =>
      rw [dmat_zero_right]
      omega
    | 0, j + 1 =>
      rw [dmat_zero_left]
      omega
    | i + 1, j + 1 =>
      have h1 := ih (i + j) (by omega) i j rfl
      have h2 := ih (i + (j + 1)) (by omega) i (j + 1) rfl
      have h3 := ih (i + 1 + j) (by omega) (i + 1) j rfl
      rw [dmat_succ_succ]
      split
      · omega
      · omega

/-!
### Properties of the backtracking loop

The main invariant: from any state the loop reaches `(0, 0)` without
ever taking the fallback branch, and the entries it emits carry a
defined reference position exactly once per unit of `i` and a defined
prediction position exactly once per unit of `j`.
-/

theorem btrackI_invariant (ref pred : List Str) :
    ∀ k i j rp pp, i + j = k →
      (btrackI ref pred i j rp pp).2.2 = true ∧
      (btrackI ref pred i j rp pp).1.countP (fun e => e.referencePosition.isSome) = i ∧
      (btrackI ref pred i j rp pp).1.countP (fun e => e.predictionPosition.isSome) = j := by
  intro k
  induction k using Nat.strong_induction_on with
  | _ k ih =>
    intro i j rp pp hk
    match i, j with
    | 0, 0 =>
      simp [btrackI, btrackRow0]
    | 0, j + 1 =>
      have hih := ih j (by omega) 0 j rp (pp - 1) (by omega)
      simp only [btrackI] at hih ⊢
      simp only [btrackRow0]
      split
      · simp [List.countP_append, hih.1, hih.2.1, hih.2.2]
      · exfalso
        have h0 : dmat ref pred 0 (j + 1) = dmat ref pred 0 j + 1 := by
          rw [dmat_zero_left, dmat_zero_left]
        omega
    | i + 1, 0 =>
      have hih := ih i (by omega) i 0 (rp - 1) pp (by omega)
      simp only [btrackI] at hih ⊢
      simp only [btrackRowS, Nat.add_sub_cancel]
      split
      · simp [List.countP_append, hih.1, hih.2.1, hih.2.2]
      · exfalso
        have h0 : dmat ref pred (i + 1) 0 = dmat ref pred i 0 + 1 := by
          rw [dmat_zero_right, dmat_zero_right]
        omega
    | i + 1, j + 1 =>
      simp only [btrackI] at ih ⊢
      simp only [btrackRowS, Nat.add_sub_cancel]
      split
      · -- match branch
        have hih := ih (i + j) (by omega) i j (rp - 1) (pp - 1) rfl
        simp [List.countP_append, hih.1, hih.2.1, hih.2.2]
      · split
        · -- substitution branch
          have hih := ih (i + j) (by omega) i j (rp - 1) (pp - 1) rfl
          simp [List.countP_append, hih.1, hih.2.1, hih.2.2]
        · split
          · -- deletion branch
            have hih := ih (i + (j + 1)) (by omega) i (j + 1) (rp - 1) pp rfl
            simp [List.countP_append, hih.1, hih.2.1, hih.2.2]
          · split
            · -- insertion branch: same-row recursion at column j
              have hih := ih (i + 1 + j) (by omega) (i + 1) j rp (pp - 1) rfl
              simp only [btrackI, Nat.add_sub_cancel] at hih
              simp [List.countP_append, hih.1, hih.2.1, hih.2.2]
            · -- fallback: contradicts the recurrence for the cell
              exfalso
              rename_i hne h1 h2 h3
              have hd := dmat_succ_succ ref pred i j
              rw [if_neg hne] at hd
              omega

theorem btrackI_self (X : List Str) :
    ∀ i rp pp,
      (btrackI X X i i rp pp).1.length = i ∧
      (btrackI X X i i rp pp).1.all (fun e => decide (e.type = AlignType.correct)) = true ∧
      (btrackI X X i i rp pp).2.1 = [] := by
  intro i
  induction i with
  | zero =>
    intro rp pp
    simp [btrackI, btrackRow0]
  | succ i ihi =>
    intro rp pp
    have hih := ihi (rp - 1) (pp - 1)
    simp only [btrackI] at hih ⊢
    simp only [btrackRowS, Nat.add_sub_cancel]
    simp [hih.1, hih.2.1, hih.2.2]

theorem get?_getD_eq (l : List Str) (i : Nat) (h : i < l.length) :
    l.get? i = some (l.getD i []) := by
  rw [List.get?_eq_getElem?, List.getD_eq_getElem?_getD, List.getElem?_eq_getElem h]
  rfl

theorem btrackI_positions (ref pred : List Str) :
    ∀ k i j rp pp, i + j = k → i ≤ ref.length → j ≤ pred.length →
      rp = (i : Int) - 1 → pp = (j : Int) - 1 →
      (btrackI ref pred i j rp pp).1.all (posOk ref pred) = true := by
  intro k
  induction k using Nat.strong_induction_on with
  | _ k ih =>
    intro i j rp pp hk hi hj hrp hpp
    match i, j with
    | 0, 0 =>
      simp [btrackI, btrackRow0]
    | 0, j + 1 =>
      have hjlt : j < pred.length := by omega
      have hih := ih j (by omega) 0 j rp (pp - 1) (by omega) (by omega) (by omega)
        (by omega) (by omega)
      simp only [btrackI] at hih ⊢
      simp only [btrackRow0]
      split
      · simp only [List.all_append, List.all_cons, List.all_nil, Bool.and_eq_true,
          Bool.and_true]
        refine ⟨hih, ?_⟩
        simp only [posOk, Bool.and_eq_true, decide_eq_true_eq]
        refine ⟨trivial, ⟨by omega, ?_⟩⟩
        have htp : pp.toNat = j := by omega
        rw [htp]
        exact get?_getD_eq pred j hjlt
      · rfl
    | i + 1, 0 =>
      have hilt : i < ref.length := by omega
      have hih := ih i (by omega) i 0 (rp - 1) pp (by omega) (by omega) (by omega)
        (by omega) (by omega)
      simp only [btrackI] at hih ⊢
      simp only [btrackRowS, Nat.add_sub_cancel]
      split
      · simp only [List.all_append, List.all_cons, List.all_nil, Bool.and_eq_true,
          Bool.and_true]
        refine ⟨hih, ?_⟩
        simp only [posOk, Bool.and_eq_true, decide_eq_true_eq]
        refine ⟨⟨by omega, ?_⟩, trivial⟩
        have htr : rp.toNat = i := by omega
        rw [htr]
        exact get?_getD_eq ref i hilt
      · rfl
    | i + 1, j + 1 =>
      have hilt : i < ref.length := by omega
      have hjlt : j < pred.length := by omega
      have htr : rp.toNat = i := by omega
      have htp : pp.toNat = j := by omega
      simp only [btrackI] at ih ⊢
      simp only [btrackRowS, Nat.add_sub_cancel]
      split
      · -- match
        have hih := ih (i + j) (by omega) i j (rp - 1) (pp - 1) rfl (by omega) (by omega)
          (by omega) (by omega)
        simp only [List.all_append, List.all_cons, List.all_nil, Bool.and_eq_true,
          Bool.and_true]
        refine ⟨hih, ?_⟩
        simp only [posOk, Bool.and_eq_true, decide_eq_true_eq]
        refine ⟨⟨by omega, ?_⟩, ⟨by omega, ?_⟩⟩
        · rw [htr]
          exact get?_getD_eq ref i hilt
        · rw [htp]
          exact get?_getD_eq pred j hjlt
      · split
        · -- substitution
          have hih := ih (i + j) (by omega) i j (rp - 1) (pp - 1) rfl (by omega) (by omega)
            (by omega) (by omega)
          simp only [List.all_append, List.all_cons, List.all_nil, Bool.and_eq_true,
            Bool.and_true]
          refine ⟨hih, ?_⟩
          simp only [posOk, Bool.and_eq_true, decide_eq_true_eq]
          refine ⟨⟨by omega, ?_⟩, ⟨by omega, ?_⟩⟩
          · rw [htr]
            exact get?_getD_eq ref i hilt
          · rw [htp]
            exact get?_getD_eq pred j hjlt
        · split
          · -- deletion
            have hih := ih (i + (j + 1)) (by omega) i (j + 1) (rp - 1) pp rfl (by omega)
              (by omega) (by omega) (by omega)
            simp only [List.all_append, List.all_cons, List.all_nil, Bool.and_eq_true,
              Bool.and_true]
            refine ⟨hih, ?_⟩
            simp only [posOk, Bool.and_eq_true, decide_eq_true_eq]
            refine ⟨⟨by omega, ?_⟩, trivial⟩
            rw [htr]
            exact get?_getD_eq ref i hilt
          · split
            · -- insertion
              have hih := ih (i + 1 + j) (by omega) (i + 1) j rp (pp - 1) rfl (by omega)
                (by omega) (by omega) (by omega)
              simp only [btrackI, Nat.add_sub_cancel] at hih
              simp only [List.all_append, List.all_cons, List.all_nil, Bool.and_eq_true,
                Bool.and_true]
              refine ⟨hih, ?_⟩
              simp only [posOk, Bool.and_eq_true, decide_eq_true_eq]
              refine ⟨trivial, ⟨by omega, ?_⟩⟩
              rw [htp]
              exact get?_getD_eq pred j hjlt
            · rfl

/-!
### Disjointness, counting and batch helpers
-/


theorem dmat_disjoint (ref pred : List Str) (hdisj : ∀ t ∈ ref, t ∉ pred) :
    ∀ k i j, i + j = k → i ≤ ref.length → j ≤ pred.length →
      dmat ref pred i j = max i j := by
  intro k
  induction k using Nat.strong_induction_on with
  | _ k ih =>
    intro i j hk hi hj
    match i, j with
    | i, 0 =>
      rw [dmat_zero_right]
      omega
    | 0, j + 1 =>
      rw [dmat_zero_left]
      omega
    | i + 1, j + 1 =>
      have hilt : i < ref.length := by omega
      have hjlt : j < pred.length := by omega
      have hne : ¬ ref.get? i = pred.get? j := by
        rw [get?_getD_eq ref i hilt, get?_getD_eq pred j hjlt]
        intro hcon
        have hmem : ref.getD i [] ∈ ref := by
          have := get?_getD_eq ref i hilt
          exact List.get?_mem this
        have hmem2 : pred.getD j [] ∈ pred := by
          have := get?_getD_eq pred j hjlt
          exact List.get?_mem this
        have := hdisj _ hmem
        rw [Option.some_inj] at hcon
        rw [hcon] at this
        exact this hmem2
      have h1 := ih (i + j) (by omega) i j rfl (by omega) (by omega)
      have h2 := ih (i + (j + 1)) (by omega) i (j + 1) rfl (by omega) (by omega)
      have h3 := ih (i + 1 + j) (by omega) (i + 1) j rfl (by omega) (by omega)
      rw [dmat_succ_succ, if_neg hne]
      omega

theorem btrackI_disjoint (ref pred : List Str) (hdisj : ∀ t ∈ ref, t ∉ pred)
    (hlen : ref.length = pred.length) :
    ∀ i rp pp, i ≤ ref.length →
      (btrackI ref pred i i rp pp).1.length = i ∧
      (btrackI ref pred i i rp pp).1.all
        (fun e => decide (e.type = AlignType.substitution)) = true := by
  intro i
  induction i with
  | zero =>
    intro rp pp _
    simp [btrackI, btrackRow0]
  | succ i ihi =>
    intro rp pp hi
    have hilt : i < ref.length := by omega
    have hjlt : i < pred.length := by omega
    have hne : ¬ ref.get? i = pred.get? i := by
      rw [get?_getD_eq ref i hilt, get?_getD_eq pred i hjlt]
      intro hcon
      have hmem : ref.getD i [] ∈ ref := List.get?_mem (get?_getD_eq ref i hilt)
      have hmem2 : pred.getD i [] ∈ pred := List.get?_mem (get?_getD_eq pred i hjlt)
      have := hdisj _ hmem
      rw [Option.some_inj] at hcon
      rw [hcon] at this
      exact this hmem2
    have hsub : dmat ref pred (i + 1) (i + 1) = dmat ref pred i i + 1 := by
      rw [dmat_disjoint ref pred hdisj (i + i) i i rfl (by omega) (by omega),
        dmat_disjoint ref pred hdisj (i + 1 + (i + 1)) (i + 1) (i + 1) rfl (by omega)
          (by omega)]
      omega
    have hih := ihi (rp - 1) (pp - 1) (by omega)
    simp only [btrackI] at hih ⊢
    simp only [btrackRowS, Nat.add_sub_cancel]
    rw [if_neg hne, if_pos hsub]
    simp [List.all_append, hih.1, hih.2]

theorem countP_error_types (l : List AlignmentResult) :
    l.countP (fun a => decide (a.type = AlignType.substitution)) +
      l.countP (fun a => decide (a.type = AlignType.insertion)) +
      l.countP (fun a => decide (a.type = AlignType.deletion)) =
      l.countP (fun a => !(decide (a.type = AlignType.correct))) := by
  induction l with
  | nil => simp
  | cons e rest ih =>
    rcases e with ⟨r, p, t, rp, pp⟩
    cases t <;> simp [List.countP_cons] <;> omega

theorem foldl_add_eq_sum (f : WERResult → Nat) (l : List WERResult) :
    ∀ a : Nat, l.foldl (fun sum r => sum + f r) a = a + (l.map f).sum := by
  induction l with
  | nil => simp
  | cons r rest ih =>
    intro a
    simp [List.foldl_cons, ih (a + f r)]
    omega

theorem splitWs_pump (k : Nat) : splitWs (pump k) = List.replicate k ['a'] := by
  induction k with
  | zero => rfl
  | succ k ih =>
    have hstep : splitWs (pump (k + 1)) = ['a'] :: splitWs (pump k) := rfl
    rw [hstep, ih, List.replicate_succ]

/-!
### Batch-aggregation helpers
-/

theorem calcres_wer_formula (data : List DataRow) (opts : PreprocessOptions) :
    (calculateResults data opts).2.wer =
      if (((calculateResults data opts).1.map (fun r => r.totalWords)).sum) = 0 then 0
      else (((((calculateResults data opts).1.map (fun r => r.substitutions)).sum : Nat) : ℚ) +
            ((((calculateResults data opts).1.map (fun r => r.insertions)).sum : Nat) : ℚ) +
            ((((calculateResults data opts).1.map (fun r => r.deletions)).sum : Nat) : ℚ)) /
           (((((calculateResults data opts).1.map (fun r => r.totalWords)).sum : Nat) : ℚ)) := by
  simp only [calculateResults]
  rw [foldl_add_eq_sum (fun r => r.totalWords) _ 0,
    foldl_add_eq_sum (fun r => r.substitutions) _ 0,
    foldl_add_eq_sum (fun r => r.insertions) _ 0,
    foldl_add_eq_sum (fun r => r.deletions) _ 0]
  simp only [Nat.zero_add]
  rcases Nat.eq_zero_or_pos ((data.map (fun row =>
      calculateWER row.reference row.prediction (some opts))).map
      (fun r => r.totalWords)).sum with h0 | h0
  · rw [if_pos h0, if_neg (by omega)]
  · rw [if_pos h0, if_neg (by omega)]
    push_cast
    simp [List.map_map, Function.comp_def]

theorem sample_counts :
    ((calculateResults
        [⟨"a b c d".toList, "a b c x".toList⟩, ⟨"p q r s t u".toList, "p q r s x y".toList⟩]
        ⟨false, false, false⟩).1.map (fun r => r.totalWords)).sum = 10 ∧
    ((calculateResults
        [⟨"a b c d".toList, "a b c x".toList⟩, ⟨"p q r s t u".toList, "p q r s x y".toList⟩]
        ⟨false, false, false⟩).1.map (fun r => r.substitutions)).sum = 3 ∧
    ((calculateResults
        [⟨"a b c d".toList, "a b c x".toList⟩, ⟨"p q r s t u".toList, "p q r s x y".toList⟩]
        ⟨false, false, false⟩).1.map (fun r => r.insertions)).sum = 0 ∧
    ((calculateResults
        [⟨"a b c d".toList, "a b c x".toList⟩, ⟨"p q r s t u".toList, "p q r s x y".toList⟩]
        ⟨false, false, false⟩).1.map (fun r => r.deletions)).sum = 0 := by
  refine ⟨by decide, by decide, by decide, by decide⟩

/-!
### The claims

One theorem per claim of the specification review, in claim order.
-/

/-- C1: for every pair of input strings and any preprocessing options,
the report of `calculateWER` satisfies: substitutions + insertions +
deletions equals the number of non-correct entries of the alignment,
and `wer` (likewise each component rate) is the corresponding error
count divided by `totalWords` when `totalWords` is positive and `0`
when `totalWords = 0`. -/
theorem rate_consistency (reference prediction : Str) (opts : Option PreprocessOptions) :
    (calculateWER reference prediction opts).substitutions +
      (calculateWER reference prediction opts).insertions +
      (calculateWER reference prediction opts).deletions =
      (calculateWER reference prediction opts).alignment.countP
        (fun e => !(decide (e.type = AlignType.correct))) ∧
    (calculateWER reference prediction opts).wer =
      (if 0 < (calculateWER reference prediction opts).totalWords
       then (((calculateWER reference prediction opts).substitutions : ℚ) +
             ((calculateWER reference prediction opts).insertions : ℚ) +
             ((calculateWER reference prediction opts).deletions : ℚ)) /
            ((calculateWER reference prediction opts).totalWords : ℚ)
       else 0) ∧
    (calculateWER reference prediction opts).substitutionRate =
      (if 0 < (calculateWER reference prediction opts).totalWords
       then ((calculateWER reference prediction opts).substitutions : ℚ) /
            ((calculateWER reference prediction opts).totalWords : ℚ)
       else 0) ∧
    (calculateWER reference prediction opts).insertionRate =
      (if 0 < (calculateWER reference prediction opts).totalWords
       then ((calculateWER reference prediction opts).insertions : ℚ) /
            ((calculateWER reference prediction opts).totalWords : ℚ)
       else 0) ∧
    (calculateWER reference prediction opts).deletionRate =
      (if 0 < (calculateWER reference prediction opts).totalWords
       then ((calculateWER reference prediction opts).deletions : ℚ) /
            ((calculateWER reference prediction opts).totalWords : ℚ)
       else 0) := by
  simp only [calculateWER, werOfTokens]
  refine ⟨countP_error_types _, ?_, trivial, trivial, trivial⟩
  push_cast
  rfl

/-- C2: aligning any token sequence against itself yields a trace of
exactly its length consisting solely of `correct` entries, and the
resulting report has `wer = 0`. -/
theorem align_identity (X : List Str) :
    (alignWordsWithPositions X X).alignment.length = X.length ∧
    (alignWordsWithPositions X X).alignment.all
      (fun e => decide (e.type = AlignType.correct)) = true ∧
    (werOfTokens X X).wer = 0 := by
  have h := btrackI_self X X.length ((X.length : Int) - 1) ((X.length : Int) - 1)
  have hmem : ∀ e ∈ (btrackI X X X.length X.length ((X.length : Int) - 1)
      ((X.length : Int) - 1)).1, e.type = AlignType.correct := by
    intro e he
    have := List.all_eq_true.mp h.2.1 e he
    simpa using this
  have hs : (btrackI X X X.length X.length ((X.length : Int) - 1)
      ((X.length : Int) - 1)).1.countP
      (fun e => decide (e.type = AlignType.substitution)) = 0 := by
    apply List.countP_eq_zero.mpr
    intro e he
    simp [hmem e he]
  have hi : (btrackI X X X.length X.length ((X.length : Int) - 1)
      ((X.length : Int) - 1)).1.countP
      (fun e => decide (e.type = AlignType.insertion)) = 0 := by
    apply List.countP_eq_zero.mpr
    intro e he
    simp [hmem e he]
  have hd : (btrackI X X X.length X.length ((X.length : Int) - 1)
      ((X.length : Int) - 1)).1.countP
      (fun e => decide (e.type = AlignType.deletion)) = 0 := by
    apply List.countP_eq_zero.mpr
    intro e he
    simp [hmem e he]
  refine ⟨?_, ?_, ?_⟩
  · exact h.1
  · exact h.2.1
  · simp only [werOfTokens, alignWordsWithPositions, btrack]
    simp [hs, hi, hd]

/-- C3: for equal-length token sequences sharing no token, the
alignment consists entirely of `substitution` entries (in particular no
insertion or deletion entries), one per position. -/
theorem full_mismatch_all_substitutions (ref pred : List Str)
    (hlen : ref.length = pred.length) (hdisj : ∀ t ∈ ref, t ∉ pred) :
    (alignWordsWithPositions ref pred).alignment.length = ref.length ∧
    (alignWordsWithPositions ref pred).alignment.all
      (fun e => decide (e.type = AlignType.substitution)) = true := by
  have h := btrackI_disjoint ref pred hdisj hlen ref.length
    ((ref.length : Int) - 1) ((ref.length : Int) - 1) le_rfl
  simp only [alignWordsWithPositions, btrack]
  rw [← hlen]
  exact h

/-- Witness for C3 at the concrete input `ref = ["a"]`, `pred = ["b"]`. -/
theorem full_mismatch_all_substitutions_witness :
    (alignWordsWithPositions [['a']] [['b']]).alignment.length = 1 ∧
    (alignWordsWithPositions [['a']] [['b']]).alignment.all
      (fun e => decide (e.type = AlignType.substitution)) = true :=
  full_mismatch_all_substitutions [['a']] [['b']] (by decide) (by decide)

/-- C4: the cost matrix satisfies the border invariants
`cell[i][0] = i` and `cell[0][j] = j`, and its final cell is between
`|m - n|` and `max m n`. -/
theorem cost_matrix_bounds (ref pred : List Str) :
    (∀ i, dmat ref pred i 0 = i) ∧ (∀ j, dmat ref pred 0 j = j) ∧
    ((ref.length : Int) - (pred.length : Int)).natAbs ≤
      dmat ref pred ref.length pred.length ∧
    dmat ref pred ref.length pred.length ≤ max ref.length pred.length := by
  have h := dmat_bounds_aux ref pred (ref.length + pred.length) ref.length pred.length rfl
  exact ⟨dmat_zero_right ref pred, dmat_zero_left ref pred, by omega, h.1⟩

/-- C5: in the alignment trace, entries with a defined reference
position number exactly `|reference|` and entries with a defined
prediction position number exactly `|prediction|`; every defined
position is the zero-based index of the entry's token in its original
sequence (`posOk`). -/
theorem token_count_invariants (ref pred : List Str) :
    (alignWordsWithPositions ref pred).alignment.countP
      (fun e => e.referencePosition.isSome) = ref.length ∧
    (alignWordsWithPositions ref pred).alignment.countP
      (fun e => e.predictionPosition.isSome) = pred.length ∧
    (alignWordsWithPositions ref pred).alignment.all (posOk ref pred) = true := by
  have h1 := btrackI_invariant ref pred (ref.length + pred.length) ref.length pred.length
    ((ref.length : Int) - 1) ((pred.length : Int) - 1) rfl
  have h2 := btrackI_positions ref pred (ref.length + pred.length) ref.length pred.length
    ((ref.length : Int) - 1) ((pred.length : Int) - 1) rfl le_rfl le_rfl rfl rfl
  simp only [alignWordsWithPositions, btrack]
  exact ⟨h1.2.1, h1.2.2, h2⟩

/-- C6: with `removePunctuation` enabled (alone), the normalizer is
exactly the character map replacing each non-kept character by one
space, hence length-preserving; `"fox,dog"` normalizes to
`"fox dog"` and still tokenizes into two words. -/
theorem remove_punctuation_preserves_boundaries :
    (∀ text : Str,
       preprocessText text ⟨false, true, false⟩ = removePunct text ∧
       removePunct text = text.map (fun c => if keepChar c then c else ' ') ∧
       (removePunct text).length = text.length) ∧
    preprocessText "fox,dog".toList ⟨false, true, false⟩ = "fox dog".toList ∧
    splitWs (preprocessText "fox,dog".toList ⟨false, true, false⟩) =
      ["fox".toList, "dog".toList] := by
  refine ⟨fun text => ⟨rfl, rfl, by simp [removePunct]⟩, by decide, by decide⟩

/-- C7: with no options record, and likewise with all three switches
disabled, `calculateWER` tokenizes the original texts verbatim
(whitespace split, empty fragments dropped) with no other
transformation. -/
theorem verbatim_tokens_without_options :
    (∀ text : Str, processedText text none = text) ∧
    (∀ text : Str, preprocessText text ⟨false, false, false⟩ = text) ∧
    (∀ reference prediction : Str,
       calculateWER reference prediction none =
         werOfTokens (splitWs reference) (splitWs prediction)) ∧
    (∀ reference prediction : Str,
       calculateWER reference prediction (some ⟨false, false, false⟩) =
         werOfTokens (splitWs reference) (splitWs prediction)) :=
  ⟨fun _ => rfl, fun _ => rfl, fun _ _ => rfl, fun _ _ => rfl⟩

/-- C8 (counterexample): there is no bound `N` on the token count
reaching the report: `calculateWER` imposes no size limit, so for every
candidate `N` some input exceeds it and is still processed normally. -/
theorem size_limit_refuted :
    ¬ ∃ N : Nat, ∀ reference prediction : Str,
        (calculateWER reference prediction none).totalWords ≤ N := by
  rintro ⟨N, h⟩
  have hw := h (pump (N + 1)) []
  have hlen : (calculateWER (pump (N + 1)) [] none).totalWords = N + 1 := by
    show (splitWs (pump (N + 1))).length = N + 1
    rw [splitWs_pump]
    simp
  omega

/-- C8 (amended): `calculateWER` never signals a size-limit error: it
is total, always proceeding to the full tokenization, alignment and
report, for inputs of arbitrarily large token count. -/
theorem no_size_limit :
    (∀ (reference prediction : Str) (opts : Option PreprocessOptions),
       calculateWER reference prediction opts =
         werOfTokens (splitWs (processedText reference opts))
           (splitWs (processedText prediction opts))) ∧
    (∀ N : Nat, ∃ reference : Str,
       N < (calculateWER reference [] none).totalWords ∧
       (calculateWER reference [] none).alignment =
         (alignWordsWithPositions (splitWs reference) (splitWs [])).alignment) := by
  refine ⟨fun _ _ _ => rfl, fun N => ⟨pump (N + 1), ?_, rfl⟩⟩
  show N < (splitWs (pump (N + 1))).length
  rw [splitWs_pump]
  simp

/-- C9: the overall batch WER pools counts — it is the sum of
per-sample error counts divided by the sum of per-sample `totalWords`
(`0` when that sum is `0`); on samples with `(totalWords = 4,
errors = 1)` and `(totalWords = 6, errors = 2)` it equals `3/10` and is
not the mean of the per-sample rates. -/
theorem batch_aggregation_pooled :
    (∀ (data : List DataRow) (opts : PreprocessOptions),
       (calculateResults data opts).2.wer =
         if (((calculateResults data opts).1.map (fun r => r.totalWords)).sum) = 0 then 0
         else (((((calculateResults data opts).1.map (fun r => r.substitutions)).sum : Nat) : ℚ) +
               ((((calculateResults data opts).1.map (fun r => r.insertions)).sum : Nat) : ℚ) +
               ((((calculateResults data opts).1.map (fun r => r.deletions)).sum : Nat) : ℚ)) /
              (((((calculateResults data opts).1.map (fun r => r.totalWords)).sum : Nat) : ℚ))) ∧
    (calculateResults
        [⟨"a b c d".toList, "a b c x".toList⟩, ⟨"p q r s t u".toList, "p q r s x y".toList⟩]
        ⟨false, false, false⟩).2.wer = 3 / 10 ∧
    ¬ (calculateResults
        [⟨"a b c d".toList, "a b c x".toList⟩, ⟨"p q r s t u".toList, "p q r s x y".toList⟩]
        ⟨false, false, false⟩).2.wer =
      ((calculateResults
          [⟨"a b c d".toList, "a b c x".toList⟩, ⟨"p q r s t u".toList, "p q r s x y".toList⟩]
          ⟨false, false, false⟩).1.map (fun r => r.wer)).sum / 2 := by
  have hconc : (calculateResults
      [⟨"a b c d".toList, "a b c x".toList⟩, ⟨"p q r s t u".toList, "p q r s x y".toList⟩]
      ⟨false, false, false⟩).2.wer = 3 / 10 := by
    rw [calcres_wer_formula]
    rw [sample_counts.1, sample_counts.2.1, sample_counts.2.2.1, sample_counts.2.2.2]
    norm_num
  have h1 : (calculateWER "a b c d".toList "a b c x".toList
      (some ⟨false, false, false⟩)).wer = 1 / 4 := by
    have hr : (calculateWER "a b c d".toList "a b c x".toList
        (some ⟨false, false, false⟩)).wer =
        if 0 < (calculateWER "a b c d".toList "a b c x".toList
            (some ⟨false, false, false⟩)).totalWords
        then (((calculateWER "a b c d".toList "a b c x".toList
                 (some ⟨false, false, false⟩)).substitutions +
               (calculateWER "a b c d".toList "a b c x".toList
                 (some ⟨false, false, false⟩)).insertions +
               (calculateWER "a b c d".toList "a b c x".toList
                 (some ⟨false, false, false⟩)).deletions : Nat) : ℚ) /
             ((calculateWER "a b c d".toList "a b c x".toList
                 (some ⟨false, false, false⟩)).totalWords : ℚ)
        else 0 := rfl
    rw [hr,
      show (calculateWER "a b c d".toList "a b c x".toList
        (some ⟨false, false, false⟩)).substitutions = 1 by decide,
      show (calculateWER "a b c d".toList "a b c x".toList
        (some ⟨false, false, false⟩)).insertions = 0 by decide,
      show (calculateWER "a b c d".toList "a b c x".toList
        (some ⟨false, false, false⟩)).deletions = 0 by decide,
      show (calculateWER "a b c d".toList "a b c x".toList
        (some ⟨false, false, false⟩)).totalWords = 4 by decide]
    norm_num
  have h2 : (calculateWER "p q r s t u".toList "p q r s x y".toList
      (some ⟨false, false, false⟩)).wer = 1 / 3 := by
    have hr : (calculateWER "p q r s t u".toList "p q r s x y".toList
        (some ⟨false, false, false⟩)).wer =
        if 0 < (calculateWER "p q r s t u".toList "p q r s x y".toList
            (some ⟨false, false, false⟩)).totalWords
        then (((calculateWER "p q r s t u".toList "p q r s x y".toList
                 (some ⟨false, false, false⟩)).substitutions +
               (calculateWER "p q r s t u".toList "p q r s x y".toList
                 (some ⟨false, false, false⟩)).insertions +
               (calculateWER "p q r s t u".toList "p q r s x y".toList
                 (some ⟨false, false, false⟩)).deletions : Nat) : ℚ) /
             ((calculateWER "p q r s t u".toList "p q r s x y".toList
                 (some ⟨false, false, false⟩)).totalWords : ℚ)
        else 0 := rfl
    rw [hr,
      show (calculateWER "p q r s t u".toList "p q r s x y".toList
        (some ⟨false, false, false⟩)).substitutions = 2 by decide,
      show (calculateWER "p q r s t u".toList "p q r s x y".toList
        (some ⟨false, false, false⟩)).insertions = 0 by decide,
      show (calculateWER "p q r s t u".toList "p q r s x y".toList
        (some ⟨false, false, false⟩)).deletions = 0 by decide,
      show (calculateWER "p q r s t u".toList "p q r s x y".toList
        (some ⟨false, false, false⟩)).totalWords = 6 by decide]
    norm_num
  have hmean : ((calculateResults
      [⟨"a b c d".toList, "a b c x".toList⟩, ⟨"p q r s t u".toList, "p q r s x y".toList⟩]
      ⟨false, false, false⟩).1.map (fun r => r.wer)).sum = 7 / 12 := by
    simp only [calculateResults, List.map_cons, List.map_nil, List.sum_cons, List.sum_nil]
    rw [h1, h2]
    norm_num
  refine ⟨calcres_wer_formula, hconc, ?_⟩
  rw [hconc, hmean]
  norm_num

/-- C10: from every backtracking state the loop reaches `(0, 0)`
without taking the fallback branch (`ok` flag stays `true`), and the
trace accounts for every token of both sequences. -/
theorem backtrack_fallback_unreachable (ref pred : List Str) (i j : Nat) (rp pp : Int) :
    (btrack ref pred i j rp pp).2.2 = true ∧
    (btrack ref pred i j rp pp).1.countP (fun e => e.referencePosition.isSome) = i ∧
    (btrack ref pred i j rp pp).1.countP (fun e => e.predictionPosition.isSome) = j := by
  have h := btrackI_invariant ref pred (i + j) i j rp pp rfl
  simpa only [btrack] using h

end Wer
